import Mathlib

/-!
Shallow embedding of the inference pipeline of `backend/api/main.py` of the
Potato-Disease-Detector repository.  Machine floats are modelled as
rationals: the pipeline only moves, compares and convexly combines
score/pixel values, so order facts and convex-combination facts transfer.
Python exceptions are modelled with `Except`.
-/

/-- Dtype of a numpy/tensorflow array; the pipeline only meets uint8
(decoded pixels) and float32 (output of tf.image.resize). -/
inductive DType
  | uint8
  | float32
  deriving DecidableEq

/-- Row-major n-dimensional array: shape, dtype, and flattened samples. -/
structure NDArr where
  shape : List Nat
  dtype : DType
  data : List ℚ
  deriving DecidableEq

/-- Python exceptions that the functions of `main.py` can raise. -/
inductive PyErr
  | unidentifiedImage  -- PIL UnidentifiedImageError raised by Image.open
  | tfInvalidArgument  -- tensorflow InvalidArgumentError raised by tf.image.resize
  | indexError         -- Python IndexError from list/array indexing
  | valueError         -- numpy ValueError (argmax or max of an empty array)
  deriving DecidableEq

/-- Color modes of a PIL image; the model covers the common modes L
(grayscale), RGB and RGBA. -/
inductive PILMode
  | L
  | RGB
  | RGBA
  deriving DecidableEq

/-- Samples per pixel of each mode. -/
def PILMode.channels : PILMode → Nat
  | .L => 1
  | .RGB => 3
  | .RGBA => 4

/-- A parsed PIL image: dimensions, mode, and row-major samples
(height * width * channels values, each in [0, 255]). -/
structure PILImage where
  height : Nat
  width : Nat
  mode : PILMode
  data : List ℚ
  deriving DecidableEq

/-- Drop every fourth sample (the alpha channel) of RGBA data, as PIL does
when converting RGBA to RGB. -/
def dropAlpha : List ℚ → List ℚ
  | r :: g :: b :: _ :: rest => r :: g :: b :: dropAlpha rest
  | l => l

/-- Models the PIL call Image.convert with argument RGB: grayscale samples
are replicated across three channels, RGBA drops alpha, RGB is unchanged;
height and width never change. -/
def convertRGB (img : PILImage) : PILImage :=
  match img.mode with
  | .RGB => img
  | .L => { img with mode := PILMode.RGB, data := (img.data.map fun v => [v, v, v]).flatten }
  | .RGBA => { img with mode := PILMode.RGB, data := dropAlpha img.data }

/-- Models numpy.array applied to a PIL image: a (height, width, channels)
uint8 array over the same samples. -/
def npArrayOfPIL (img : PILImage) : NDArr :=
  { shape := [img.height, img.width, img.mode.channels]
    dtype := DType.uint8
    data := img.data }

/-- Embedding of read_file_as_image: Image.open parses the bytes (the PIL
parser itself is external, hence a parameter; it raises
UnidentifiedImageError on bytes it cannot identify), convert RGB forces
three channels, numpy.array materializes the pixel array. -/
def read_file_as_image (parse : List Nat → Option PILImage) (data : List Nat) :
    Except PyErr NDArr :=
  match parse data with
  | none => Except.error PyErr.unidentifiedImage
  | some image => Except.ok (npArrayOfPIL (convertRGB image))

/-- Source coordinate of output index i when resizing a dimension of size s
to size o: tf.image.resize uses half-pixel centers, (i + 1/2) * s / o - 1/2. -/
def interpIn (i s o : Nat) : ℚ := ((i : ℚ) + 1/2) * s / o - 1/2

/-- Lower source index: floor of the source coordinate, clamped at 0,
as in the tensorflow ResizeBilinear kernel. -/
def interpLower (i s o : Nat) : Nat := (max ⌊interpIn i s o⌋ 0).toNat

/-- Upper source index: ceiling of the source coordinate, clamped at s - 1,
as in the tensorflow ResizeBilinear kernel. -/
def interpUpper (i s o : Nat) : Nat := (min ⌈interpIn i s o⌉ ((s : Int) - 1)).toNat

/-- Interpolation weight: fractional part of the source coordinate. -/
def interpLerp (i s o : Nat) : ℚ := Int.fract (interpIn i s o)

/-- Sample (y, x, c) of row-major (h, w, ch) pixel data, 0 out of bounds. -/
def getPix (d : List ℚ) (w ch y x c : Nat) : ℚ := d.getD ((y * w + x) * ch + c) 0

/-- One output sample of bilinear resize: the lerp of the four neighbouring
input samples, computed exactly as the tensorflow ResizeBilinear kernel
does (top lerp, bottom lerp, vertical lerp). -/
def resizePix (d : List ℚ) (h w ch th tw y x c : Nat) : ℚ :=
  let yt := interpLerp y h th
  let xt := interpLerp x w tw
  let tl := getPix d w ch (interpLower y h th) (interpLower x w tw) c
  let tr := getPix d w ch (interpLower y h th) (interpUpper x w tw) c
  let bl := getPix d w ch (interpUpper y h th) (interpLower x w tw) c
  let br := getPix d w ch (interpUpper y h th) (interpUpper x w tw) c
  (tl + (tr - tl) * xt) + ((bl + (br - bl) * xt) - (tl + (tr - tl) * xt)) * yt

/-- Models tf.image.resize (default bilinear method) on a rank-3 image: the
kernel rejects zero input or output sizes with InvalidArgumentError, and
otherwise returns a float32 array of the target shape whose samples are
bilinear interpolations of the input samples. -/
def tfResize : NDArr → Nat → Nat → Except PyErr NDArr
  | ⟨[h, w, ch], _, d⟩, th, tw =>
    if h = 0 ∨ w = 0 ∨ th = 0 ∨ tw = 0 then Except.error PyErr.tfInvalidArgument
    else Except.ok
      { shape := [th, tw, ch]
        dtype := DType.float32
        data := (List.range (th * tw * ch)).map fun n =>
          resizePix d h w ch th tw (n / (tw * ch)) (n / ch % tw) (n % ch) }
  | _, _, _ => Except.error PyErr.tfInvalidArgument

/-- Models numpy.expand_dims with axis 0: prepends a batch dimension. -/
def expandDims0 (a : NDArr) : NDArr :=
  { shape := 1 :: a.shape, dtype := a.dtype, data := a.data }

/-- Configured model input size of `main.py`. -/
def IMAGE_SIZE : Nat × Nat := (256, 256)

/-- Embedding of preprocess_image: resize to IMAGE_SIZE, then expand_dims
to a batch of one.  The rescaling line img = img / 255.0 is commented out
in the source, so no rescaling happens between resize and batching. -/
def preprocess_image (image : NDArr) : Except PyErr NDArr :=
  match tfResize image IMAGE_SIZE.1 IMAGE_SIZE.2 with
  | Except.error e => Except.error e
  | Except.ok img => Except.ok (expandDims0 img)

/-- Running-best loop of numpy argmax: scan the remaining samples holding
the current best value bv found at absolute index bi, the next sample
having absolute index i; a sample replaces the best only when strictly
greater, so the first occurrence of the maximum wins. -/
def argmaxGo : List ℚ → Nat → Nat → ℚ → Nat
  | [], _, bi, _ => bi
  | x :: xs, i, bi, bv =>
    if bv < x then argmaxGo xs (i + 1) i x else argmaxGo xs (i + 1) bi bv

/-- Models numpy.argmax on a vector (0 on the empty vector, where numpy
raises instead; callers guard non-emptiness). -/
def npArgmax : List ℚ → Nat
  | [] => 0
  | x :: xs => argmaxGo xs 1 0 x

/-- Models numpy.max on a vector (0 on the empty vector, where numpy
raises instead; callers guard non-emptiness). -/
def npMax : List ℚ → ℚ
  | [] => 0
  | x :: xs => xs.foldl max x

/-- The loaded Keras model: the input shape it was built with and the
underlying inference function, returning one row of class scores per
batch row.  The trained artifact is external to the repository, so the
inference function is an arbitrary parameter. -/
structure Model where
  inputShape : List Nat
  run : NDArr → List (List ℚ)

/-- Embedding of the line preds = MODEL.predict(input_batch): the batch is
handed to the model unconditionally; no shape comparison of any kind
appears in the source before the call. -/
def classifyStep (m : Model) (input_batch : NDArr) : Except PyErr (List (List ℚ)) :=
  Except.ok (m.run input_batch)

/-- Class label table of `main.py`. -/
def CLASS_NAMES : List String := ["Early_blight", "Late_blight", "Healthy"]

/-- The JSON object returned by the predict endpoint. -/
structure PredictResponse where
  filename : String
  prediction : String
  confidence : ℚ
  class_index : Nat
  shape : List Nat
  deriving DecidableEq

/-- Embedding of the result-assembly lines of predict:
predicted_index = argmax of the score row, predicted_class = the label at
that index (Python raises IndexError when it is out of range),
confidence = max of the score row; numpy raises ValueError on an empty
row.  No length comparison between scores and labels appears in the
source. -/
def assembleStep (preds0 : List ℚ) (labels : List String) (filename : String)
    (imgShape : List Nat) : Except PyErr PredictResponse :=
  if preds0 = [] then Except.error PyErr.valueError
  else
    match labels.get? (npArgmax preds0) with
    | none => Except.error PyErr.indexError
    | some predicted_class =>
      Except.ok
        { filename := filename
          prediction := predicted_class
          confidence := npMax preds0
          class_index := npArgmax preds0
          shape := imgShape }

/-- Embedding of the predict endpoint body: decode, preprocess, model
invocation, result assembly; every exception propagates to the caller,
nothing is caught. -/
def predict (parse : List Nat → Option PILImage) (m : Model) (filename : String)
    (filedata : List Nat) : Except PyErr PredictResponse :=
  match read_file_as_image parse filedata with
  | Except.error e => Except.error e
  | Except.ok image =>
    match preprocess_image image with
    | Except.error e => Except.error e
    | Except.ok input_batch =>
      match classifyStep m input_batch with
      | Except.error e => Except.error e
      | Except.ok preds =>
        match preds.head? with
        | none => Except.error PyErr.indexError
        | some preds0 => assembleStep preds0 CLASS_NAMES filename image.shape

/-- A PIL byte parser, abstracted: Image.open either identifies an image or
raises; it can never identify an image in an empty buffer, since every
format it knows starts with a non-empty signature. -/
structure PILParse where
  parse : List Nat → Option PILImage
  parse_nil : parse [] = none

/-- If no remaining sample exceeds the current best value, the running-best
loop keeps the current best index. -/
theorem argmaxGo_all_le (l : List ℚ) : ∀ i bi bv, (∀ x ∈ l, x ≤ bv) →
    argmaxGo l i bi bv = bi := by
  induction l with
  | nil => intro i bi bv _; rfl
  | cons x xs ih =>
    intro i bi bv h
    have hx : ¬ bv < x := not_lt.mpr (h x (List.mem_cons_self x xs))
    simp only [argmaxGo, if_neg hx]
    exact ih (i + 1) bi bv fun z hz => h z (List.mem_cons_of_mem x hz)

/-- If some remaining sample exceeds the current best value, the loop lands
on the first position of the remaining list that attains its maximum. -/
theorem argmaxGo_exceeds (l : List ℚ) : ∀ i bi bv, (∃ x ∈ l, bv < x) →
    ∃ k, k < l.length ∧ argmaxGo l i bi bv = i + k ∧
      bv < l.getD k 0 ∧ (∀ x ∈ l, x ≤ l.getD k 0) ∧
      ∀ m, m < k → l.getD m 0 < l.getD k 0 := by
  induction l with
  | nil =>
    intro i bi bv h
    obtain ⟨x, hx, _⟩ := h
    cases hx
  | cons x xs ih =>
    intro i bi bv hex
    by_cases hbx : bv < x
    · simp only [argmaxGo, if_pos hbx]
      by_cases hall : ∀ z ∈ xs, z ≤ x
      · refine ⟨0, Nat.succ_pos _, ?_, ?_, ?_, ?_⟩
        · rw [argmaxGo_all_le xs (i + 1) i x hall]
          omega
        · simpa using hbx
        · intro z hz
          rcases List.mem_cons.mp hz with h1 | h2
          · simp [h1]
          · simpa using hall z h2
        · intro m hm
          omega
      · push_neg at hall
        obtain ⟨z, hz, hxz⟩ := hall
        obtain ⟨k, hk, heq, hlt, hub, hfirst⟩ := ih (i + 1) i x ⟨z, hz, hxz⟩
        refine ⟨k + 1, Nat.succ_lt_succ hk, ?_, ?_, ?_, ?_⟩
        · rw [heq]; omega
        · simpa [List.getD_cons_succ] using lt_trans hbx hlt
        · intro y hy
          rcases List.mem_cons.mp hy with h1 | h2
          · simp only [List.getD_cons_succ, h1]
            exact le_of_lt hlt
          · simpa [List.getD_cons_succ] using hub y h2
        · intro m hm
          match m with
          | 0 => simpa [List.getD_cons_succ] using hlt
          | m + 1 =>
            simp only [List.getD_cons_succ]
            exact hfirst m (by omega)
    · simp only [argmaxGo, if_neg hbx]
      have hex2 : ∃ z ∈ xs, bv < z := by
        obtain ⟨y, hy, hby⟩ := hex
        rcases List.mem_cons.mp hy with h1 | h2
        · exact absurd (h1 ▸ hby) hbx
        · exact ⟨y, h2, hby⟩
      obtain ⟨k, hk, heq, hlt, hub, hfirst⟩ := ih (i + 1) bi bv hex2
      refine ⟨k + 1, Nat.succ_lt_succ hk, ?_, ?_, ?_, ?_⟩
      · rw [heq]; omega
      · simpa [List.getD_cons_succ] using hlt
      · intro y hy
        rcases List.mem_cons.mp hy with h1 | h2
        · simp only [List.getD_cons_succ, h1]
          exact le_of_lt (lt_of_le_of_lt (not_lt.mp hbx) hlt)
        · simpa [List.getD_cons_succ] using hub y h2
      · intro m hm
        match m with
        | 0 =>
          simp only [List.getD_cons_zero, List.getD_cons_succ]
          exact lt_of_le_of_lt (not_lt.mp hbx) hlt
        | m + 1 =>
          simp only [List.getD_cons_succ]
          exact hfirst m (by omega)

/-- The seed of a left max-fold never exceeds the fold. -/
theorem foldl_max_le_self (l : List ℚ) : ∀ a : ℚ, a ≤ l.foldl max a := by
  induction l with
  | nil => intro a; exact le_refl a
  | cons x xs ih => intro a; exact le_trans (le_max_left a x) (ih (max a x))

/-- No member of the list exceeds a left max-fold over it. -/
theorem foldl_max_le (l : List ℚ) : ∀ a : ℚ, ∀ x ∈ l, x ≤ l.foldl max a := by
  induction l with
  | nil => intro a x hx; cases hx
  | cons y ys ih =>
    intro a x hx
    rcases List.mem_cons.mp hx with h | h
    · subst h
      exact le_trans (le_max_right a x) (foldl_max_le_self ys (max a x))
    · exact ih (max a y) x h

/-- A left max-fold is the seed or a member of the list. -/
theorem foldl_max_mem (l : List ℚ) : ∀ a : ℚ, l.foldl max a = a ∨ l.foldl max a ∈ l := by
  induction l with
  | nil => intro a; exact Or.inl rfl
  | cons x xs ih =>
    intro a
    rcases ih (max a x) with h | h
    · rcases le_total a x with hax | hxa
      · right
        rw [List.foldl_cons, h, max_eq_right hax]
        exact List.mem_cons_self x xs
      · left
        rw [List.foldl_cons, h, max_eq_left hxa]
    · right
      exact List.mem_cons_of_mem x h

/-- Every member of a vector is at most its numpy max. -/
theorem le_npMax (s : List ℚ) (x : ℚ) (hx : x ∈ s) : x ≤ npMax s := by
  match s with
  | [] => cases hx
  | y :: ys =>
    show x ≤ ys.foldl max y
    rcases List.mem_cons.mp hx with h | h
    · subst h
      exact foldl_max_le_self ys x
    · exact foldl_max_le ys y x h

/-- The numpy max of a non-empty vector is one of its members. -/
theorem npMax_mem (s : List ℚ) (h : s ≠ []) : npMax s ∈ s := by
  match s with
  | y :: ys =>
    show ys.foldl max y ∈ y :: ys
    rcases foldl_max_mem ys y with h1 | h1
    · rw [h1]
      exact List.mem_cons_self y ys
    · exact List.mem_cons_of_mem y h1

/-- Numpy argmax of a non-empty vector is an in-range index holding the
maximum value, and every earlier index holds a strictly smaller value:
the first occurrence of the maximum wins. -/
theorem npArgmax_spec (s : List ℚ) (h : s ≠ []) :
    npArgmax s < s.length ∧ s.getD (npArgmax s) 0 = npMax s ∧
      ∀ j, j < npArgmax s → s.getD j 0 < npMax s := by
  match s with
  | x :: xs =>
    by_cases hall : ∀ z ∈ xs, z ≤ x
    · have h0 : npArgmax (x :: xs) = 0 := argmaxGo_all_le xs 1 0 x hall
      have hmax : npMax (x :: xs) = x := by
        have h1 : npMax (x :: xs) ∈ x :: xs := npMax_mem _ (by simp)
        have h2 : x ≤ npMax (x :: xs) := le_npMax _ x (List.mem_cons_self x xs)
        rcases List.mem_cons.mp h1 with h3 | h3
        · exact h3
        · exact le_antisymm (hall _ h3) h2
      rw [h0, hmax]
      refine ⟨Nat.succ_pos _, by simp, ?_⟩
      intro j hj
      omega
    · push_neg at hall
      obtain ⟨k, hk, heq, hlt, hub, hfirst⟩ := argmaxGo_exceeds xs 1 0 x hall
      have h0 : npArgmax (x :: xs) = k + 1 := by
        show argmaxGo xs 1 0 x = k + 1
        rw [heq]
        omega
      have hmem : xs.getD k 0 ∈ xs := by
        rw [List.getD_eq_getElem xs 0 hk]
        exact List.getElem_mem hk
      have hmaxval : npMax (x :: xs) = xs.getD k 0 := by
        apply le_antisymm
        · rcases List.mem_cons.mp (npMax_mem (x :: xs) (by simp)) with h3 | h3
          · rw [h3]
            exact le_of_lt hlt
          · exact hub _ h3
        · exact le_npMax _ _ (List.mem_cons_of_mem x hmem)
      rw [h0, hmaxval]
      refine ⟨Nat.succ_lt_succ hk, by simp [List.getD_cons_succ], ?_⟩
      intro j hj
      match j with
      | 0 =>
        simpa [List.getD_cons_zero] using hlt
      | j + 1 =>
        simp only [List.getD_cons_succ]
        exact hfirst j (by omega)

/-- Whatever result the assembly step returns records the argmax index and
the max value of the (necessarily non-empty) score row. -/
theorem assembleStep_ok_fields (s : List ℚ) (labels : List String) (f : String)
    (sh : List Nat) (r : PredictResponse)
    (h : assembleStep s labels f sh = Except.ok r) :
    s ≠ [] ∧ r.class_index = npArgmax s ∧ r.confidence = npMax s ∧
      r.filename = f ∧ r.shape = sh := by
  by_cases hs : s = []
  · rw [assembleStep, if_pos hs] at h
    cases h
  · rw [assembleStep, if_neg hs] at h
    cases hget : labels.get? (npArgmax s) with
    | none =>
      rw [hget] at h
      cases h
    | some cls =>
      rw [hget] at h
      cases h
      exact ⟨hs, rfl, rfl, rfl, rfl⟩

/-- Claim C1: the result-assembly step selects predicted index as numpy
argmax of the score row, and numpy argmax is the first index attaining
the maximum: for every non-empty scores row the selected index is in
range, holds the maximum value, and every earlier index holds a strictly
smaller value; in particular scores [0.5, 0.5, 0.1] give index 0. -/
theorem claim_C1_argmax_first_occurrence :
    (∀ (s : List ℚ) (labels : List String) (f : String) (sh : List Nat)
        (r : PredictResponse), assembleStep s labels f sh = Except.ok r →
        r.class_index = npArgmax s) ∧
    (∀ s : List ℚ, s ≠ [] →
      npArgmax s < s.length ∧ s.getD (npArgmax s) 0 = npMax s ∧
        ∀ j, j < npArgmax s → s.getD j 0 < npMax s) ∧
    npArgmax [mkRat 1 2, mkRat 1 2, mkRat 1 10] = 0 := by
  refine ⟨?_, ?_, ?_⟩
  · intro s labels f sh r h
    exact (assembleStep_ok_fields s labels f sh r h).2.1
  · intro s h
    exact npArgmax_spec s h
  · decide

/-- Witness for C1 at the tie vector [0.5, 0.5, 0.1] and at a concrete
assembled response. -/
theorem claim_C1_witness :
    npArgmax [mkRat 1 2, mkRat 1 2, mkRat 1 10] = 0 ∧
    npArgmax [mkRat 1 2, mkRat 1 2, mkRat 1 10] < 3 ∧
    (PredictResponse.mk "leaf.jpg" "Early_blight" (mkRat 1 2) 0 [2, 2, 3]).class_index =
      npArgmax [mkRat 1 2, mkRat 1 2, mkRat 1 10] :=
  ⟨claim_C1_argmax_first_occurrence.2.2,
   (claim_C1_argmax_first_occurrence.2.1 [mkRat 1 2, mkRat 1 2, mkRat 1 10] (by decide)).1,
   claim_C1_argmax_first_occurrence.1 [mkRat 1 2, mkRat 1 2, mkRat 1 10] CLASS_NAMES
     "leaf.jpg" [2, 2, 3]
     (PredictResponse.mk "leaf.jpg" "Early_blight" (mkRat 1 2) 0 [2, 2, 3]) (by rfl)⟩

/-- Claim C2: for every non-empty scores row (with the argmax index inside
the label table, as with the configured three labels) the assembly step
succeeds and the reported confidence is the maximum score value itself —
numpy max of the row, with nothing re-normalizing it. -/
theorem claim_C2_confidence_is_max (s : List ℚ) (labels : List String)
    (f : String) (sh : List Nat) (h : s ≠ [])
    (hlen : npArgmax s < labels.length) :
    ∃ r, assembleStep s labels f sh = Except.ok r ∧ r.confidence = npMax s := by
  obtain ⟨c, hc⟩ : ∃ c, labels.get? (npArgmax s) = some c := by
    rw [List.get?_eq_getElem? labels (npArgmax s), List.getElem?_eq_getElem hlen]
    exact ⟨labels[npArgmax s], rfl⟩
  rw [assembleStep, if_neg h, hc]
  exact ⟨_, rfl, rfl⟩

/-- Witness for C2 at the healthy-leaf scores [0.02, 0.03, 0.95] of the
design's first end-to-end scenario. -/
theorem claim_C2_witness :
    ([mkRat 1 50, mkRat 3 100, mkRat 19 20] : List ℚ) ≠ [] ∧
    npArgmax [mkRat 1 50, mkRat 3 100, mkRat 19 20] < CLASS_NAMES.length ∧
    ∃ r, assembleStep [mkRat 1 50, mkRat 3 100, mkRat 19 20] CLASS_NAMES "leaf.jpg"
          [256, 256, 3] =
        Except.ok r ∧ r.confidence = npMax [mkRat 1 50, mkRat 3 100, mkRat 19 20] :=
  ⟨by decide, by decide,
   claim_C2_confidence_is_max [mkRat 1 50, mkRat 3 100, mkRat 19 20] CLASS_NAMES
     "leaf.jpg" [256, 256, 3] (by decide) (by decide)⟩

/-- Converting to RGB keeps height and width and always lands in mode RGB. -/
theorem convertRGB_dims (img : PILImage) :
    (convertRGB img).height = img.height ∧ (convertRGB img).width = img.width ∧
      (convertRGB img).mode = PILMode.RGB := by
  cases img with
  | mk h w m d => cases m <;> exact ⟨rfl, rfl, rfl⟩

/-- Whenever the parsed image has non-zero sizes, resizing it to the
256 by 256 target succeeds with the target shape. -/
theorem tfResize_shape (dt : DType) (d : List ℚ) (h w c th tw : Nat)
    (hh : h ≠ 0) (hw : w ≠ 0) (hth : th ≠ 0) (htw : tw ≠ 0) :
    tfResize (NDArr.mk [h, w, c] dt d) th tw = Except.ok
      { shape := [th, tw, c]
        dtype := DType.float32
        data := (List.range (th * tw * c)).map fun n =>
          resizePix d h w c th tw (n / (tw * c)) (n / c % tw) (n % c) } := by
  rw [tfResize, if_neg]
  simp [hh, hw, hth, htw]

/-- Claim C3: whenever the PIL parser identifies the bytes as an image (of
positive dimensions, as every real image file has), decode returns a
3-channel array of the source height and width, and preprocess turns it
into a batch of shape (1, 256, 256, 3) — one image at the configured
target size. -/
theorem claim_C3_decode_preprocess_shapes (parse : List Nat → Option PILImage)
    (data : List Nat) (src : PILImage) (hp : parse data = some src)
    (hh : src.height ≠ 0) (hw : src.width ≠ 0) :
    ∃ arr, read_file_as_image parse data = Except.ok arr ∧
      arr.shape = [src.height, src.width, 3] ∧
      ∃ batch, preprocess_image arr = Except.ok batch ∧
        batch.shape = [1, 256, 256, 3] := by
  rw [read_file_as_image, hp]
  obtain ⟨h1, h2, h3⟩ := convertRGB_dims src
  refine ⟨_, rfl, ?_, ?_⟩
  · show [(convertRGB src).height, (convertRGB src).width, (convertRGB src).mode.channels] = _
    rw [h1, h2, h3]
    rfl
  · simp only [preprocess_image, IMAGE_SIZE, npArrayOfPIL]
    rw [h1, h2, h3]
    simp only [PILMode.channels]
    rw [tfResize_shape DType.uint8 (convertRGB src).data src.height src.width 3 256 256
      hh hw (by omega) (by omega)]
    exact ⟨_, rfl, rfl⟩

/-- Witness for C3: a 2 by 2 grayscale source image. -/
theorem claim_C3_witness :
    (fun _ : List Nat => some (PILImage.mk 2 2 PILMode.L [5, 6, 7, 8])) [9] =
        some (PILImage.mk 2 2 PILMode.L [5, 6, 7, 8]) ∧
    ∃ arr, read_file_as_image
        (fun _ => some (PILImage.mk 2 2 PILMode.L [5, 6, 7, 8])) [9] = Except.ok arr ∧
      arr.shape = [2, 2, 3] ∧
      ∃ batch, preprocess_image arr = Except.ok batch ∧
        batch.shape = [1, 256, 256, 3] :=
  ⟨rfl, claim_C3_decode_preprocess_shapes _ [9] (PILImage.mk 2 2 PILMode.L [5, 6, 7, 8])
    rfl (by decide) (by decide)⟩

/-- Claim C4: whenever PIL cannot identify the bytes as an image, decode
raises (UnidentifiedImageError — the DecodeError of the design) and the
predict endpoint propagates exactly that error to its caller, with no
default image substituted; the empty byte buffer, which no PIL parser
identifies, always fails this way. -/
theorem claim_C4_decode_error_propagates (p : PILParse) (data : List Nat)
    (m : Model) (f : String) (hp : p.parse data = none) :
    read_file_as_image p.parse data = Except.error PyErr.unidentifiedImage ∧
    predict p.parse m f data = Except.error PyErr.unidentifiedImage ∧
    predict p.parse m f [] = Except.error PyErr.unidentifiedImage := by
  refine ⟨?_, ?_, ?_⟩
  · rw [read_file_as_image, hp]
  · rw [predict, read_file_as_image, hp]
  · rw [predict, read_file_as_image, p.parse_nil]

/-- Witness for C4: a parser that identifies nothing, on a 2-byte buffer. -/
theorem claim_C4_witness :
    (PILParse.mk (fun _ => none) rfl).parse [1, 2] = none ∧
    read_file_as_image (PILParse.mk (fun _ => none) rfl).parse [1, 2] =
        Except.error PyErr.unidentifiedImage ∧
    predict (PILParse.mk (fun _ => none) rfl).parse
        (Model.mk [1, 256, 256, 3] fun _ => [[1, 0, 0]]) "leaf.jpg" [1, 2] =
      Except.error PyErr.unidentifiedImage ∧
    predict (PILParse.mk (fun _ => none) rfl).parse
        (Model.mk [1, 256, 256, 3] fun _ => [[1, 0, 0]]) "leaf.jpg" [] =
      Except.error PyErr.unidentifiedImage :=
  ⟨rfl, claim_C4_decode_error_propagates (PILParse.mk (fun _ => none) rfl) [1, 2]
    (Model.mk [1, 256, 256, 3] fun _ => [[1, 0, 0]]) "leaf.jpg" rfl⟩

/-- Claim C5 counterexample: scores of length 3 against a label table of
length 4: the assembly step raises nothing and happily returns a result —
the source performs no length comparison at all. -/
theorem claim_C5_counterexample :
    assembleStep [mkRat 1 2, mkRat 1 5, mkRat 3 10]
        ["Early_blight", "Late_blight", "Healthy", "Extra"] "leaf.jpg" [300, 400, 3] =
      Except.ok (PredictResponse.mk "leaf.jpg" "Early_blight" (mkRat 1 2) 0 [300, 400, 3]) := by
  rfl

/-- Claim C5 amended: the assembly step compares no lengths: for a
non-empty score row it succeeds exactly when the argmax index lands
inside the label table, and when that index falls outside the table it
raises a plain IndexError — never a dedicated LabelMappingError, no such
check existing in the source. -/
theorem claim_C5_amended_no_length_check (s : List ℚ) (labels : List String)
    (f : String) (sh : List Nat) (h : s ≠ []) :
    (npArgmax s < labels.length → ∃ r, assembleStep s labels f sh = Except.ok r) ∧
    (labels.length ≤ npArgmax s →
      assembleStep s labels f sh = Except.error PyErr.indexError) := by
  constructor
  · intro hlt
    obtain ⟨c, hc⟩ : ∃ c, labels.get? (npArgmax s) = some c := by
      rw [List.get?_eq_getElem? labels (npArgmax s), List.getElem?_eq_getElem hlt]
      exact ⟨labels[npArgmax s], rfl⟩
    rw [assembleStep, if_neg h, hc]
    exact ⟨_, rfl⟩
  · intro hge
    have hc : labels.get? (npArgmax s) = none := by
      rw [List.get?_eq_getElem? labels (npArgmax s)]
      exact List.getElem?_eq_none hge
    rw [assembleStep, if_neg h, hc]

/-- Witness for the amended C5: scores longer than the label table with the
maximum in the tail raise IndexError. -/
theorem claim_C5_amended_witness :
    ([(5 : ℚ), 7] ≠ []) ∧
    assembleStep [(5 : ℚ), 7] ["only_label"] "f.png" [1, 1, 3] =
      Except.error PyErr.indexError :=
  ⟨by decide,
   (claim_C5_amended_no_length_check [(5 : ℚ), 7] ["only_label"] "f.png" [1, 1, 3]
     (by decide)).2 (by decide)⟩

/-- Claim C6 counterexample: a batch of shape (1, 128, 128, 3) handed to a
model expecting (1, 256, 256, 3): the source performs no shape check
before invocation — the model is invoked and its scores come back,
nothing raises. -/
theorem claim_C6_counterexample :
    (NDArr.mk [1, 128, 128, 3] DType.float32 (List.replicate 49152 0)).shape ≠
      (Model.mk [1, 256, 256, 3] fun _ => [[1, 0, 0]]).inputShape ∧
    classifyStep (Model.mk [1, 256, 256, 3] fun _ => [[1, 0, 0]])
        (NDArr.mk [1, 128, 128, 3] DType.float32 (List.replicate 49152 0)) =
      Except.ok [[1, 0, 0]] :=
  ⟨by decide, rfl⟩

/-- Claim C6 amended: classify validates nothing: whatever its shape, the
preprocessed batch goes straight into the model, and predict continues
with the model's first row of scores; no shape-mismatch error is ever
raised by the pipeline itself (no such check exists in the source — a
mismatch could only surface from inside the external model library). -/
theorem claim_C6_amended_no_shape_check (parse : List Nat → Option PILImage)
    (m : Model) (f : String) (data : List Nat) (image batch : NDArr)
    (h1 : read_file_as_image parse data = Except.ok image)
    (h2 : preprocess_image image = Except.ok batch) :
    predict parse m f data =
      match (m.run batch).head? with
      | none => Except.error PyErr.indexError
      | some preds0 => assembleStep preds0 CLASS_NAMES f image.shape := by
  simp only [predict, h1, h2, classifyStep]

/-- Claim C7: a decoded image with zero height or zero width never becomes
an input batch: the resize kernel rejects zero-size input
(InvalidArgumentError — the ShapeError of the design) and preprocess
propagates the failure instead of producing a batch. -/
theorem claim_C7_zero_size_fails (a : NDArr) (h w c : Nat)
    (hsh : a.shape = [h, w, c]) (hz : h = 0 ∨ w = 0) :
    preprocess_image a = Except.error PyErr.tfInvalidArgument := by
  cases a with
  | mk sh dt d =>
    simp only at hsh
    subst hsh
    rw [preprocess_image]
    show (match tfResize (NDArr.mk [h, w, c] dt d) 256 256 with
      | Except.error e => Except.error e
      | Except.ok img => Except.ok (expandDims0 img)) = _
    rw [tfResize, if_pos (by tauto)]

/-- Witness for C7: a decoded 0 by 5 image. -/
theorem claim_C7_witness :
    (NDArr.mk [0, 5, 3] DType.uint8 []).shape = [0, 5, 3] ∧
    preprocess_image (NDArr.mk [0, 5, 3] DType.uint8 []) =
      Except.error PyErr.tfInvalidArgument :=
  ⟨rfl, claim_C7_zero_size_fails (NDArr.mk [0, 5, 3] DType.uint8 []) 0 5 3 rfl (Or.inl rfl)⟩

/-- Out-of-range reads default to 0, so every read of pixel data whose
samples lie in [0, 255] lies in [0, 255]. -/
theorem getD_bounds : ∀ d : List ℚ, (∀ v ∈ d, 0 ≤ v ∧ v ≤ 255) →
    ∀ n, 0 ≤ d.getD n 0 ∧ d.getD n 0 ≤ 255 := by
  intro d
  induction d with
  | nil =>
    intro _ n
    constructor <;> simp [List.getD]
  | cons x xs ih =>
    intro hd n
    cases n with
    | zero => simpa using hd x (List.mem_cons_self x xs)
    | succ k =>
      rw [List.getD_cons_succ]
      exact ih (fun v hv => hd v (List.mem_cons_of_mem x hv)) k

/-- A pixel read stays in the [0, 255] sample range. -/
theorem getPix_bounds (d : List ℚ) (hd : ∀ v ∈ d, 0 ≤ v ∧ v ≤ 255)
    (w ch y x c : Nat) : 0 ≤ getPix d w ch y x c ∧ getPix d w ch y x c ≤ 255 :=
  getD_bounds d hd ((y * w + x) * ch + c)

/-- A convex combination a + (b - a) * t with weight t in [0, 1] of values
in [0, 255] stays in [0, 255]. -/
theorem lerp_comb_bounds (a b t : ℚ) (ha : 0 ≤ a ∧ a ≤ 255) (hb : 0 ≤ b ∧ b ≤ 255)
    (ht0 : 0 ≤ t) (ht1 : t ≤ 1) : 0 ≤ a + (b - a) * t ∧ a + (b - a) * t ≤ 255 := by
  constructor <;> nlinarith [ha.1, ha.2, hb.1, hb.2]

/-- Every bilinear output sample of data with samples in [0, 255] lies in
[0, 255]: the resize rescales geometry, never the value range. -/
theorem resizePix_bounds (d : List ℚ) (hd : ∀ v ∈ d, 0 ≤ v ∧ v ≤ 255)
    (h w ch th tw y x c : Nat) :
    0 ≤ resizePix d h w ch th tw y x c ∧ resizePix d h w ch th tw y x c ≤ 255 := by
  have hy0 : (0 : ℚ) ≤ interpLerp y h th := Int.fract_nonneg _
  have hy1 : interpLerp y h th ≤ 1 := le_of_lt (Int.fract_lt_one _)
  have hx0 : (0 : ℚ) ≤ interpLerp x w tw := Int.fract_nonneg _
  have hx1 : interpLerp x w tw ≤ 1 := le_of_lt (Int.fract_lt_one _)
  simp only [resizePix]
  exact lerp_comb_bounds _ _ _
    (lerp_comb_bounds _ _ _ (getPix_bounds d hd w ch _ _ c) (getPix_bounds d hd w ch _ _ c)
      hx0 hx1)
    (lerp_comb_bounds _ _ _ (getPix_bounds d hd w ch _ _ c) (getPix_bounds d hd w ch _ _ c)
      hx0 hx1) hy0 hy1

/-- Resizing a dimension to its own size sends index i to source
coordinate i exactly. -/
theorem interpIn_self (i s : Nat) (hs : s ≠ 0) : interpIn i s s = (i : ℚ) := by
  have h : (s : ℚ) ≠ 0 := Nat.cast_ne_zero.mpr hs
  rw [interpIn, mul_div_assoc, div_self h, mul_one]
  ring

/-- Same-size bilinear resize reads back exactly the source sample: all
four neighbours coincide and the weights vanish. -/
theorem resizePix_self (d : List ℚ) (h w ch : Nat) (hh : h ≠ 0) (hw : w ≠ 0)
    (y x c : Nat) (hy : y < h) (hx : x < w) :
    resizePix d h w ch h w y x c = getPix d w ch y x c := by
  have hyin : interpIn y h h = (y : ℚ) := interpIn_self y h hh
  have hxin : interpIn x w w = (x : ℚ) := interpIn_self x w hw
  have hylerp : interpLerp y h h = 0 := by
    rw [interpLerp, hyin, Int.fract_natCast]
  have hxlerp : interpLerp x w w = 0 := by
    rw [interpLerp, hxin, Int.fract_natCast]
  have hylo : interpLower y h h = y := by
    rw [interpLower, hyin, Int.floor_natCast]
    omega
  have hxlo : interpLower x w w = x := by
    rw [interpLower, hxin, Int.floor_natCast]
    omega
  have hyup : interpUpper y h h = y := by
    rw [interpUpper, hyin, Int.ceil_natCast]
    omega
  have hxup : interpUpper x w w = x := by
    rw [interpUpper, hxin, Int.ceil_natCast]
    omega
  simp only [resizePix, hylerp, hxlerp, hylo, hxlo, hyup, hxup]
  ring

/-- Recomposing the row-major index from its (row, column, channel)
decomposition gives the index back. -/
theorem index_recompose (n w ch : Nat) :
    (n / (w * ch) * w + n / ch % w) * ch + n % ch = n := by
  have h1 : n / (w * ch) = n / ch / w := by
    rw [Nat.div_div_eq_div_mul, Nat.mul_comm]
  have h2 : w * (n / ch / w) + n / ch % w = n / ch := Nat.div_add_mod (n / ch) w
  have h3 : ch * (n / ch) + n % ch = n := Nat.div_add_mod n ch
  calc (n / (w * ch) * w + n / ch % w) * ch + n % ch
      = (w * (n / ch / w) + n / ch % w) * ch + n % ch := by rw [h1]; ring_nf
    _ = n / ch * ch + n % ch := by rw [h2]
    _ = ch * (n / ch) + n % ch := by ring_nf
    _ = n := h3

/-- Reading every index of a list in order reproduces the list. -/
theorem map_range_getD (d : List ℚ) :
    (List.range d.length).map (fun n => d.getD n 0) = d := by
  apply List.ext_getElem
  · simp
  · intro i h1 h2
    rw [List.getElem_map, List.getElem_range, List.getD_eq_getElem d 0 h2]

/-- Claim C8: preprocess applies no rescaling: with pixel samples in the
native [0, 255] range of decoding, every sample of the produced batch is
still in [0, 255]; and for an image already of the 256 by 256 target size
the batch holds exactly the original sample values — nothing divides by
255 or otherwise renormalizes between decoding and model invocation. -/
theorem claim_C8_no_rescaling (dt : DType) (d : List ℚ) (h w c : Nat)
    (hh : h ≠ 0) (hw : w ≠ 0) (hd : ∀ v ∈ d, 0 ≤ v ∧ v ≤ 255) :
    ∃ b, preprocess_image (NDArr.mk [h, w, c] dt d) = Except.ok b ∧
      (∀ v ∈ b.data, 0 ≤ v ∧ v ≤ 255) ∧
      (h = 256 → w = 256 → d.length = 256 * 256 * c → b.data = d) := by
  refine ⟨expandDims0 (NDArr.mk [256, 256, c] DType.float32
      ((List.range (256 * 256 * c)).map fun n =>
        resizePix d h w c 256 256 (n / (256 * c)) (n / c % 256) (n % c))), ?_, ?_, ?_⟩
  · simp only [preprocess_image, IMAGE_SIZE]
    rw [tfResize_shape dt d h w c 256 256 hh hw (by omega) (by omega)]
  · intro v hv
    simp only [expandDims0] at hv
    obtain ⟨n, hn, rfl⟩ := List.mem_map.mp hv
    exact resizePix_bounds d hd h w c 256 256 _ _ _
  · intro h256 w256 hlen
    subst h256
    subst w256
    show (List.range (256 * 256 * c)).map (fun n =>
      resizePix d 256 256 c 256 256 (n / (256 * c)) (n / c % 256) (n % c)) = d
    have hptwise : ∀ n ∈ List.range (256 * 256 * c),
        resizePix d 256 256 c 256 256 (n / (256 * c)) (n / c % 256) (n % c) =
          d.getD n 0 := by
      intro n hn
      have hn2 : n < 256 * 256 * c := List.mem_range.mp hn
      have hc : c ≠ 0 := by
        rintro rfl
        omega
      have hy : n / (256 * c) < 256 := by
        rw [Nat.div_lt_iff_lt_mul (by omega : 0 < 256 * c), ← Nat.mul_assoc]
        exact hn2
      have hx : n / c % 256 < 256 := Nat.mod_lt _ (by omega)
      rw [resizePix_self d 256 256 c (by omega) (by omega) _ _ _ hy hx]
      show d.getD ((n / (256 * c) * 256 + n / c % 256) * c + n % c) 0 = d.getD n 0
      rw [index_recompose n 256 c]
    rw [List.map_congr_left hptwise, ← hlen, map_range_getD]

/-- Witness for C8: a 1 by 1 RGB image with samples 0, 100 and 255. -/
theorem claim_C8_witness :
    (∀ v ∈ [(0 : ℚ), 100, 255], 0 ≤ v ∧ v ≤ 255) ∧
    ∃ b, preprocess_image (NDArr.mk [1, 1, 3] DType.uint8 [0, 100, 255]) =
        Except.ok b ∧
      (∀ v ∈ b.data, 0 ≤ v ∧ v ≤ 255) ∧
      (1 = 256 → 1 = 256 → ([(0 : ℚ), 100, 255]).length = 256 * 256 * 3 →
        b.data = [0, 100, 255]) :=
  ⟨by decide,
   claim_C8_no_rescaling DType.uint8 [0, 100, 255] 1 1 3 (by decide) (by decide) (by decide)⟩

/-- Claim C10: the decoded uint8 array comes out of preprocess as a float32
batch: tf.image.resize always returns float32 samples, so the model never
receives the original unsigned 8-bit dtype, while the sample values stay
in the 0 to 255 range of the decoded pixels. -/
theorem claim_C10_float_dtype (d : List ℚ) (h w c : Nat)
    (hh : h ≠ 0) (hw : w ≠ 0) (hd : ∀ v ∈ d, 0 ≤ v ∧ v ≤ 255) :
    ∃ b, preprocess_image (NDArr.mk [h, w, c] DType.uint8 d) = Except.ok b ∧
      b.dtype = DType.float32 ∧
      b.dtype ≠ (NDArr.mk [h, w, c] DType.uint8 d).dtype ∧
      ∀ v ∈ b.data, 0 ≤ v ∧ v ≤ 255 := by
  refine ⟨expandDims0 (NDArr.mk [256, 256, c] DType.float32
      ((List.range (256 * 256 * c)).map fun n =>
        resizePix d h w c 256 256 (n / (256 * c)) (n / c % 256) (n % c))), ?_, rfl, ?_, ?_⟩
  · simp only [preprocess_image, IMAGE_SIZE]
    rw [tfResize_shape DType.uint8 d h w c 256 256 hh hw (by omega) (by omega)]
  · intro hcon
    cases hcon
  · intro v hv
    simp only [expandDims0] at hv
    obtain ⟨n, hn, rfl⟩ := List.mem_map.mp hv
    exact resizePix_bounds d hd h w c 256 256 _ _ _

/-- Witness for C10: a 1 by 2 grayscale-decoded array. -/
theorem claim_C10_witness :
    (∀ v ∈ [(12 : ℚ), 13, 14, 15, 16, 17], 0 ≤ v ∧ v ≤ 255) ∧
    ∃ b, preprocess_image
        (NDArr.mk [1, 2, 3] DType.uint8 [12, 13, 14, 15, 16, 17]) = Except.ok b ∧
      b.dtype = DType.float32 ∧
      b.dtype ≠ (NDArr.mk [1, 2, 3] DType.uint8 [12, 13, 14, 15, 16, 17]).dtype ∧
      ∀ v ∈ b.data, 0 ≤ v ∧ v ≤ 255 :=
  ⟨by decide,
   claim_C10_float_dtype [12, 13, 14, 15, 16, 17] 1 2 3 (by decide) (by decide) (by decide)⟩

/-- Claim C9 counterexample: nothing in the pipeline clamps or normalizes
the reported confidence: with a (hostile but shape-correct) model whose
raw scores are [1.5, 0.1, 0], predict returns a result whose confidence
is 1.5, outside [0, 1].  The code guarantees confidence in [0, 1] only if
the external model artifact does. -/
theorem claim_C9_counterexample :
    predict (fun _ => some (PILImage.mk 1 1 PILMode.RGB [10, 20, 30]))
        (Model.mk [1, 256, 256, 3] fun _ => [[mkRat 3 2, mkRat 1 10, 0]])
        "leaf.jpg" [99] =
      Except.ok (PredictResponse.mk "leaf.jpg" "Early_blight" (mkRat 3 2) 0 [1, 1, 3]) ∧
    ¬ (mkRat 3 2 ≤ 1) :=
  ⟨rfl, by decide⟩

/-- Claim C9 amended: the assembled confidence is the raw maximum score,
unclamped; whenever every score of the row lies in [0, 1] — the
probability-like-output assumption the design states for the model — the
confidence lies in [0, 1]. -/
theorem claim_C9_amended_confidence_range (s : List ℚ) (labels : List String)
    (f : String) (sh : List Nat) (r : PredictResponse)
    (hs : ∀ v ∈ s, 0 ≤ v ∧ v ≤ 1)
    (hr : assembleStep s labels f sh = Except.ok r) :
    0 ≤ r.confidence ∧ r.confidence ≤ 1 := by
  obtain ⟨hne, _, hconf, _, _⟩ := assembleStep_ok_fields s labels f sh r hr
  rw [hconf]
  exact hs (npMax s) (npMax_mem s hne)

/-- Witness for the amended C9 at the scores [0.02, 0.03, 0.95]. -/
theorem claim_C9_amended_witness :
    (∀ v ∈ [mkRat 1 50, mkRat 3 100, mkRat 19 20], (0 : ℚ) ≤ v ∧ v ≤ 1) ∧
    0 ≤ (PredictResponse.mk "x.png" "Healthy" (mkRat 19 20) 2 [4, 4, 3]).confidence ∧
      (PredictResponse.mk "x.png" "Healthy" (mkRat 19 20) 2 [4, 4, 3]).confidence ≤ 1 :=
  ⟨by decide,
   claim_C9_amended_confidence_range [mkRat 1 50, mkRat 3 100, mkRat 19 20] CLASS_NAMES
     "x.png" [4, 4, 3] (PredictResponse.mk "x.png" "Healthy" (mkRat 19 20) 2 [4, 4, 3])
     (by decide) (by rfl)⟩

/-- Witness for the amended C6: a concrete run in which the preprocessed
batch reaches the model untouched and predict continues with the model's
scores. -/
theorem claim_C6_amended_witness :
    read_file_as_image (fun _ => some (PILImage.mk 1 1 PILMode.RGB [1, 2, 3])) [5] =
        Except.ok (NDArr.mk [1, 1, 3] DType.uint8 [1, 2, 3]) ∧
    predict (fun _ => some (PILImage.mk 1 1 PILMode.RGB [1, 2, 3]))
        (Model.mk [1, 256, 256, 3] fun _ => [[mkRat 9 10, mkRat 1 10, 0]]) "leaf.jpg" [5] =
      assembleStep [mkRat 9 10, mkRat 1 10, 0] CLASS_NAMES "leaf.jpg"
        (NDArr.mk [1, 1, 3] DType.uint8 [1, 2, 3]).shape :=
  ⟨rfl, by
    have h := claim_C6_amended_no_shape_check
      (fun _ => some (PILImage.mk 1 1 PILMode.RGB [1, 2, 3]))
      (Model.mk [1, 256, 256, 3] fun _ => [[mkRat 9 10, mkRat 1 10, 0]]) "leaf.jpg" [5]
      (NDArr.mk [1, 1, 3] DType.uint8 [1, 2, 3])
      (expandDims0 (NDArr.mk [256, 256, 3] DType.float32 ((List.range (256 * 256 * 3)).map
        fun n => resizePix [1, 2, 3] 1 1 3 256 256 (n / (256 * 3)) (n / 3 % 256) (n % 3))))
      rfl rfl
    exact h⟩
